import Mathlib

/-!
Verification of the PocketFlow-TypeScript core: the node lifecycle with its
retry state machine, the sequential and parallel batch executors, and the
flow orchestration algorithm, shallowly embedded from the repository's two
implementation variants.

Variant 1 (pocketflow/index.ts, sync and async files): `BaseNode` with
`prep`/`exec`/`post`, `Node` adding the retry loop `_exec`, batch nodes,
and `Flow` whose `_run` wraps `_orch` between its own `prep` and `post`.

Variant 2 (src/index.ts): `BaseNode` with a `clone` method, `Flow` whose
start node is its own `default` successor and whose `run` throws when that
successor is missing.

Conventions of the embedding: JavaScript values are `Val`; thrown errors are
`Err` (an `Error` identified by its message); user lifecycle hooks are
explicit function parameters (in the heap model they live in a class table,
mirroring methods living on the prototype, which `Object.create` shares with
a clone); `exec` takes the current attempt index as an extra oracle argument
so that an attempt-dependent outside world can be expressed; mutation of the
shared store and of node objects is explicit state passing; `async`/`await`
sequencing is direct sequencing (the only core suspension point, the retry
backoff sleep, has no observable effect in this model).
-/

/-- A JavaScript-like runtime value passed through the node lifecycle:
shared-store contents, prep results, exec results and action values. -/
inductive Val where
  | null
  | undefined
  | str (s : String)
  | int (n : Int)
  | bool (b : Bool)
  | list (xs : List Val)
  | dict (entries : List (String × Val))

/-- A thrown JavaScript `Error`, identified by its message. -/
structure Err where
  msg : String
deriving DecidableEq

/-- A parameter record (`Record<string, any>`). Later entries shadow earlier
ones, so the list models a JavaScript object in which later writes win. -/
abbrev Params := List (String × Val)

/-- Record lookup: the value of the last binding of the key (later writes to
a JavaScript object replace earlier ones, so the later entries are
consulted first). -/
def getP : Params → String → Option Val
  | [], _ => none
  | e :: ps, k => (getP ps k).or (if e.1 = k then some e.2 else none)

/-- Object spread of `a` then `b`: every entry of `b` shadows the entries of
`a` with the same key. -/
def spread (a b : Params) : Params := a ++ b

/-- How `Node._exec` exited its retry loop: a successful `exec` attempt, the
`execFallback` call on the last failed attempt (returning a substitute value
or rethrowing), or the trailing `return null` after the loop. -/
inductive RetryExit where
  | execOk (v : Val)
  | fallback (r : Except Err Val)
  | fellThrough

/-- Outcome of `Node._exec` together with the loop's observable trace: the
final value of `this.curRetry`, the attempt indices at which `exec` was
invoked, and the arguments of every `execFallback` invocation. -/
structure RetryRes where
  outcome : RetryExit
  curRetry : Nat
  execAttempts : List Nat
  fbCalls : List (Val × Err)

/-- The value `Node._exec` returns for each exit kind: the success value, the
fallback's result (or its thrown error), or `null` from the trailing
`return null`. -/
def RetryRes.jsResult (r : RetryRes) : Except Err Val :=
  match r.outcome with
  | .execOk v => .ok v
  | .fallback fr => fr
  | .fellThrough => .ok .null

/-- The retry for-loop of `Node._exec`, from iteration `i` with `fuel`
remaining iterations (`fuel` is `maxRetries - i` at every call, so the
literal loop guard `i < maxRetries` is never cut short by the fuel). On a
failure that is not on the last allowed attempt the loop sleeps (no
observable effect here) and advances `curRetry`. -/
def nodeExecFrom (maxRetries : Nat) (execAt : Nat → Except Err Val)
    (fb : Val → Err → Except Err Val) (prepRes : Val) :
    Nat → Nat → RetryRes
  | 0, i => ⟨.fellThrough, i, [], []⟩
  | fuel+1, i =>
    if i < maxRetries then
      match execAt i with
      | .ok v => ⟨.execOk v, i, [i], []⟩
      | .error e =>
        if i = maxRetries - 1 then
          ⟨.fallback (fb prepRes e), i, [i], [(prepRes, e)]⟩
        else
          let r := nodeExecFrom maxRetries execAt fb prepRes fuel (i+1)
          ⟨r.outcome, r.curRetry, i :: r.execAttempts, r.fbCalls⟩
    else ⟨.fellThrough, i, [], []⟩

/-- `Node._exec` (pocketflow/index.ts, sync variant; the async variant and
variant 2's `Node.exec` are textually the same loop): run `exec` for
`curRetry = 0, 1, ...` while `curRetry < maxRetries`, returning the first
success; on a failure at the last allowed attempt return
`execFallback(prepRes, error)`; the `return null` after the loop is the
`fellThrough` exit. -/
def nodeExec (maxRetries : Nat) (execAt : Nat → Except Err Val)
    (fb : Val → Err → Except Err Val) (prepRes : Val) : RetryRes :=
  nodeExecFrom maxRetries execAt fb prepRes maxRetries 0

/-- The default `Node.execFallback(prepRes, exc)`: rethrow `exc` unchanged. -/
def execFallbackDefault : Val → Err → Except Err Val := fun _ exc => .error exc

/-- Result of one `BaseNode._run` lifecycle pass: the shared store after the
pass, the returned action (or the propagated error), and the argument pairs
`(prepRes, execRes)` of every `post` invocation. -/
structure RunOut where
  sharedOut : Val
  result : Except Err (Option String)
  postCalls : List (Val × Val)

/-- `BaseNode._run(shared)`: `p = prep(shared)`, `e = execPhase(p)`, then
`post(shared, p, e)`; an error thrown by any phase aborts the pass and the
later phases do not run. `post` returns an action string or `undefined`
(`Action | void`), here `Option String`. -/
def baseRun (prep : Val → Except Err (Val × Val))
    (execPhase : Val → Except Err Val)
    (post : Val → Val → Val → Except Err (Val × Option String))
    (shared : Val) : RunOut :=
  match prep shared with
  | .error e => ⟨shared, .error e, []⟩
  | .ok (sh1, p) =>
    match execPhase p with
    | .error e => ⟨sh1, .error e, []⟩
    | .ok ev =>
      match post sh1 p ev with
      | .error e => ⟨sh1, .error e, [(p, ev)]⟩
      | .ok (sh2, act) => ⟨sh2, .ok act, [(p, ev)]⟩

/-- `Node`'s lifecycle pass: `BaseNode._run` with the retry-wrapped
`Node._exec` as the exec phase. -/
def nodeRun (prep : Val → Except Err (Val × Val))
    (execAt : Val → Nat → Except Err Val)
    (fb : Val → Err → Except Err Val)
    (post : Val → Val → Val → Except Err (Val × Option String))
    (maxRetries : Nat) (shared : Val) : RunOut :=
  baseRun prep (fun p => (nodeExec maxRetries (execAt p) fb p).jsResult)
    post shared

/-- `Node.run(shared)`: warn when the node has successors (the warning is the
boolean), then delegate to `_run`. -/
def nodeRunTop (succs : List (String × Nat))
    (prep : Val → Except Err (Val × Val))
    (execAt : Val → Nat → Except Err Val)
    (fb : Val → Err → Except Err Val)
    (post : Val → Val → Val → Except Err (Val × Option String))
    (maxRetries : Nat) (shared : Val) : RunOut × Bool :=
  (nodeRun prep execAt fb post maxRetries shared, !succs.isEmpty)

/-- Outcome of a sequential batch `_exec` over an item list: the resulting
array (or the error that aborted the batch) together with the list of items
whose per-item execution was started, in order. -/
structure BatchOut where
  result : Except Err (List Val)
  started : List Val

/-- `SequentialBatchNode._exec(items)` (and `AsyncBatchNode._exec`): an empty
list short-circuits to `[]`; otherwise each item runs through the
retry-wrapped `super._exec` strictly in order, pushing its result; an error
aborts the whole batch, leaving the later items unstarted. -/
def seqBatchExec (maxRetries : Nat) (execAt : Val → Nat → Except Err Val)
    (fb : Val → Err → Except Err Val) : List Val → BatchOut
  | [] => ⟨.ok [], []⟩
  | item :: rest =>
    match (nodeExec maxRetries (execAt item) fb item).jsResult with
    | .error e => ⟨.error e, [item]⟩
    | .ok v =>
      let r := seqBatchExec maxRetries execAt fb rest
      ⟨r.result.map (fun vs => v :: vs), item :: r.started⟩

/-- The guard `if (!items || !items.length) return []` plus `for..of`
iteration over the prep result: a falsy value iterates as empty, an array as
its elements, a non-empty string as its characters, and any other truthy
value is not iterable and throws. -/
def valItems : Val → Except Err (List Val)
  | .list xs => .ok xs
  | .null => .ok []
  | .undefined => .ok []
  | .str s => if s = "" then .ok [] else .ok (s.data.map fun c => .str (String.mk [c]))
  | .int n => if n = 0 then .ok [] else .error ⟨"items is not iterable"⟩
  | .bool b => if b then .error ⟨"items is not iterable"⟩ else .ok []
  | .dict _ => .error ⟨"items is not iterable"⟩

/-- `SequentialBatchNode`'s lifecycle pass: `BaseNode._run` with the batch
`_exec` as the exec phase; the batch result array is what `post` receives. -/
def seqBatchRun (prep : Val → Except Err (Val × Val))
    (execAt : Val → Nat → Except Err Val)
    (fb : Val → Err → Except Err Val)
    (post : Val → Val → Val → Except Err (Val × Option String))
    (maxRetries : Nat) (shared : Val) : RunOut :=
  baseRun prep
    (fun p =>
      match valItems p with
      | .error e => .error e
      | .ok items =>
        match (seqBatchExec maxRetries execAt fb items).result with
        | .error e => .error e
        | .ok vs => .ok (.list vs))
    post shared

/-- `ParallelBatchNode._exec(items)` (and `AsyncParallelBatchNode._exec`):
`Promise.all` over the retry-wrapped per-item executions. The pure model
sequences the same independent per-item computations; result placement
matches input order by construction, as `Promise.all` guarantees. -/
def parBatchExec (maxRetries : Nat) (execAt : Val → Nat → Except Err Val)
    (fb : Val → Err → Except Err Val) (items : List Val) :
    Except Err (List Val) :=
  items.mapM (fun item => (nodeExec maxRetries (execAt item) fb item).jsResult)

/-- A warning-level diagnostic emitted by the flow machinery: the dead-end
warning `Flow ends: action not found in keys`, carrying the unmatched action
value and the available successor labels. -/
inductive Warn where
  | deadEnd (action : Val) (available : List String)

/-- Successor lookup in a node's `successors` record (action label to node
id, insertion ordered, labels unique by construction of `next`). -/
def lookupS (succs : List (String × Nat)) (k : String) : Option Nat :=
  (succs.find? (fun e => e.1 = k)).map (fun e => e.2)

/-- The successor key selected by `action || DEFAULT_ACTION`: any falsy
action value (absent, `null`, the empty string, zero, `false`) selects the
`default` label, a truthy one is used as the key (stringified by JavaScript;
the core's action type is `string | void`, so the composite cases below are
unreachable through the lifecycle and are abbreviated). -/
def keyOf : Val → String
  | .undefined => "default"
  | .null => "default"
  | .str s => if s = "" then "default" else s
  | .int n => if n = 0 then "default" else toString n
  | .bool b => if b then "true" else "default"
  | .list _ => "array"
  | .dict _ => "object"

/-- An action value as returned by a `post` hook (`Action | void`), embedded
back into `Val`: `undefined` for a void return. -/
def optStrToVal : Option String → Val
  | none => .undefined
  | some s => .str s

/-- Object-spreading a batch parameter-set value into a record: an object
contributes its entries; spreading a primitive contributes no keys (a
non-empty string would contribute character-index keys, a corner the batch
flows never rely on and which is abbreviated to no keys here). -/
def asParams : Val → Params
  | .dict ps => ps
  | _ => []

/-- `Flow.getNextNode(curr, action)` (the same code appears as
`BaseNode.getNextNode` in variant 2): look up `successors[action ||
DEFAULT_ACTION]`; when nothing matches and the node has at least one
successor, also emit the dead-end warning naming the action and the
available labels; return the match or `null`. -/
def getNextNode (succs : List (String × Nat)) (action : Val) :
    Option Nat × Option Warn :=
  let nxt := lookupS succs (keyOf action)
  let warn :=
    if nxt = none ∧ succs.length > 0 then
      some (Warn.deadEnd action (succs.map (fun e => e.1)))
    else none
  (nxt, warn)

/-- The user-overridable lifecycle hooks of a class of nodes. They live in a
class table separate from the per-object data, mirroring methods on the
prototype that `Object.create(Object.getPrototypeOf(curr))` shares between a
node and its clones. `prep` and `post` read the object's `params` and act on
the shared store by returning its new value; `exec` is pure in shared state
(its extra `Nat` argument is the attempt index, an oracle for
attempt-dependent outcomes); a `Flow`'s `exec` is never reached through
`Flow._run`, which skips the exec phase entirely. -/
structure ClassSpec where
  prep : Val → Params → Except Err (Val × Val)
  execAt : Val → Nat → Except Err Val
  fb : Val → Err → Except Err Val
  post : Val → Val → Val → Params → Except Err (Val × Option String)

/-- The default hooks of `BaseNode`: `prep`, `exec` and `post` return
`undefined` and leave the shared store alone; `execFallback` rethrows. -/
def prepDefault : Val → Params → Except Err (Val × Val) :=
  fun sh _ => .ok (sh, .undefined)

/-- Default `exec`: returns `undefined`. -/
def execAtDefault : Val → Nat → Except Err Val := fun _ _ => .ok .undefined

/-- Default `execFallback` hook (params-independent): rethrow. -/
def fbDefault : Val → Err → Except Err Val := execFallbackDefault

/-- Default `post`: returns `undefined` (no action), shared store unchanged. -/
def postDefault : Val → Val → Val → Params → Except Err (Val × Option String) :=
  fun sh _ _ _ => .ok (sh, none)

/-- A class with all-default hooks. -/
def classDefault : ClassSpec :=
  ⟨prepDefault, execAtDefault, fbDefault, postDefault⟩

/-- What kind of object a heap node is, with the constructor-assigned own
fields of that kind: a `Node` carries `maxRetries` (and its backoff wait,
observably irrelevant here), a `Flow` or `SequentialBatchFlow` carries the
`start` node reference required by its constructor. -/
inductive NodeKind where
  | node (maxRetries : Nat)
  | flow (start : Nat)
  | batchFlow (start : Nat)

/-- The mutable own fields of one heap object: its class (prototype), its
`params` and `successors` records, its `curRetry` counter and its kind
fields. `Object.assign(node, curr)` plus the two record copies in `_orch`
amount to copying this value into a fresh heap slot. -/
structure NodeData where
  cls : Nat
  kind : NodeKind
  params : Params
  succs : List (String × Nat)
  curRetry : Nat

/-- The mutable state of a variant-1 execution: the object heap (ids are
indices; `_orch` appends fresh clones), the shared store, and the warnings
emitted so far. -/
structure StA where
  heap : List NodeData
  shared : Val
  warns : List Warn

/-- A pending computation of the variant-1 core, used to express the
mutually recursive `_run`, `_orch` and batch loops as one fuel-indexed
function so that every definition computes by kernel reduction. -/
inductive TaskA where
  | runN (id : Nat)
  | orch (flowId : Nat) (supplied : Option Params)
  | orchLoop (flowId : Nat) (p : Params) (curr : Option Nat) (last : Val)
  | batchLoop (flowId : Nat) (bps : List Val) (acc : Val)

/-- The variant-1 core interpreter over a class table `prog`.

`runN id`: `node._run(shared)` on heap object `id` — for a `Node`, `prep`
then the retry loop (which stores the exit value of `curRetry` back into the
object) then `post`; for a `Flow`, `Flow._run` = `prep`, `_orch` with no
supplied params, `post` on the orchestration result; for a
`SequentialBatchFlow`, `prep` yields the parameter sets, the batch loop runs
`_orch` once per set, and `post` receives the last orchestration result
(`null` when there was no set).

`orch flowId supplied`: `_orch(shared, params?)` — computes the merged
parameter set `p` by spreading the flow's own `params` then the supplied
ones, and enters the traversal loop at the flow's `start`.

`orchLoop`: one iteration of the `while (curr)` loop — clone the current
node (fresh heap slot with its own copies of `params` and `successors`),
`setParams(p)` on the clone, run the clone, then move on through
`getNextNode(curr, lastResult)` on the canonical node, recording the
dead-end warning if one was emitted; when `curr` is `null` the loop returns
the last lifecycle result.

`batchLoop`: the `for (const bp of pr)` loop of `SequentialBatchFlow._run`,
calling `_orch(shared, spread(this.params, bp))` per parameter set.

The result value of every task is a `Val`; lifecycle actions are embedded
via `optStrToVal`. `none` means the fuel ran out (or a dangling id, which
cannot arise from a well-formed object graph). -/
def runCore (prog : List ClassSpec) : Nat → TaskA → StA →
    Option (StA × Except Err Val)
  | 0, _, _ => none
  | fuel+1, t, st =>
    match t with
    | .runN id =>
      match st.heap[id]? with
      | none => none
      | some nd =>
        match prog[nd.cls]? with
        | none => none
        | some c =>
          match nd.kind with
          | .node mr =>
            match c.prep st.shared nd.params with
            | .error e => some (st, .error e)
            | .ok (sh1, p) =>
              let lr := nodeExec mr (c.execAt p) c.fb p
              let st1 : StA :=
                { st with
                  shared := sh1
                  heap := st.heap.set id { nd with curRetry := lr.curRetry } }
              match lr.jsResult with
              | .error e => some (st1, .error e)
              | .ok ev =>
                match c.post st1.shared p ev nd.params with
                | .error e => some (st1, .error e)
                | .ok (sh2, act) =>
                  some ({ st1 with shared := sh2 }, .ok (optStrToVal act))
          | .flow _ =>
            match c.prep st.shared nd.params with
            | .error e => some (st, .error e)
            | .ok (sh1, pr) =>
              match runCore prog fuel (.orch id none) { st with shared := sh1 } with
              | none => none
              | some (st2, .error e) => some (st2, .error e)
              | some (st2, .ok res) =>
                match c.post st2.shared pr res nd.params with
                | .error e => some (st2, .error e)
                | .ok (sh3, act) =>
                  some ({ st2 with shared := sh3 }, .ok (optStrToVal act))
          | .batchFlow _ =>
            match c.prep st.shared nd.params with
            | .error e => some (st, .error e)
            | .ok (sh1, prv) =>
              match valItems prv with
              | .error e => some ({ st with shared := sh1 }, .error e)
              | .ok bps =>
                match runCore prog fuel (.batchLoop id bps .null)
                    { st with shared := sh1 } with
                | none => none
                | some (st2, .error e) => some (st2, .error e)
                | some (st2, .ok res) =>
                  match c.post st2.shared prv res nd.params with
                  | .error e => some (st2, .error e)
                  | .ok (sh3, act) =>
                    some ({ st2 with shared := sh3 }, .ok (optStrToVal act))
    | .orch flowId supplied =>
      match st.heap[flowId]? with
      | none => none
      | some fd =>
        match fd.kind with
        | .node _ => none
        | .flow start =>
          runCore prog fuel
            (.orchLoop flowId (spread fd.params (supplied.getD []))
              (some start) .undefined) st
        | .batchFlow start =>
          runCore prog fuel
            (.orchLoop flowId (spread fd.params (supplied.getD []))
              (some start) .undefined) st
    | .orchLoop flowId p curr last =>
      match curr with
      | none => some (st, .ok last)
      | some cid =>
        match st.heap[cid]? with
        | none => none
        | some cnd =>
          let cloneId := st.heap.length
          let st1 : StA := { st with heap := st.heap ++ [{ cnd with params := p }] }
          match runCore prog fuel (.runN cloneId) st1 with
          | none => none
          | some (st2, .error e) => some (st2, .error e)
          | some (st2, .ok lastResult) =>
            match st2.heap[cid]? with
            | none => none
            | some cnd2 =>
              let gn := getNextNode cnd2.succs lastResult
              let st3 : StA :=
                { st2 with warns := st2.warns ++ gn.2.toList }
              runCore prog fuel (.orchLoop flowId p gn.1 lastResult) st3
    | .batchLoop flowId bps acc =>
      match bps with
      | [] => some (st, .ok acc)
      | bp :: rest =>
        match st.heap[flowId]? with
        | none => none
        | some fd =>
          match runCore prog fuel
              (.orch flowId (some (spread fd.params (asParams bp)))) st with
          | none => none
          | some (st2, .error e) => some (st2, .error e)
          | some (st2, .ok r) =>
            runCore prog fuel (.batchLoop flowId rest r) st2

/-- What kind of object a variant-2 heap node is: a `Node` subclass with its
`maxRetries` own field, or a `Flow` (which in variant 2 has no retry fields
and no `start` field — its start node is its `default` successor). -/
inductive NodeKindB where
  | node (maxRetries : Nat)
  | flow

/-- The own fields of one variant-2 heap object, copied by `clone()`
(`Object.create` of the same prototype, `Object.assign`, then fresh copies
of the `params` and `successors` records). -/
structure NodeDataB where
  cls : Nat
  kind : NodeKindB
  params : Params
  succs : List (String × Nat)
  curRetry : Nat

/-- The mutable state of a variant-2 execution: the object heap, the shared
store, the warnings emitted so far, and a counter of lifecycle hook
invocations (`_prep`, `_exec` attempts, `_execFallback`, `_post`) used to
observe that a failing entry point ran no lifecycle at all. -/
structure StB where
  heap : List NodeDataB
  shared : Val
  warns : List Warn
  calls : Nat

/-- A pending computation of the variant-2 core: `run` on an object (with
the optional `params` and `lastFlowResult` arguments of variant 2's `run`
signature), or one iteration of `Flow.run`'s traversal loop. -/
inductive TaskB where
  | runB (id : Nat) (ps : Option Params) (last : Val)
  | flowLoop (p : Params) (curr : Option Nat) (last : Val)

/-- The variant-2 core interpreter (src/index.ts) over a class table.

`runB id ps last` on a `Node`: `Node.run(shared, ps, last)` ignores the two
extra arguments and runs `_prep`, the retry-wrapped `exec` (writing the
final `curRetry` back), and `_post`.

`runB id ps last` on a `Flow`: `Flow.run(shared, ps, last)` looks up the
start node as `this.getNextNode()` — the `default` successor — and throws
`Flow ends: no next node found` when there is none, before any lifecycle
hook runs; otherwise it copies the supplied params and enters the traversal
loop with `lastResult = lastFlowResult`.

`flowLoop`: one iteration of `while (curr)` — clone the current node, inject
`p` via `setParams`, `node.run(shared, p, lastResult)`, then follow
`curr.getNextNode(lastResult)`; when `curr` is `null`, return `lastResult`. -/
def runCoreB (prog : List ClassSpec) : Nat → TaskB → StB →
    Option (StB × Except Err Val)
  | 0, _, _ => none
  | fuel+1, t, st =>
    match t with
    | .runB id ps last =>
      match st.heap[id]? with
      | none => none
      | some nd =>
        match prog[nd.cls]? with
        | none => none
        | some c =>
          match nd.kind with
          | .node mr =>
            match c.prep st.shared nd.params with
            | .error e => some ({ st with calls := st.calls + 1 }, .error e)
            | .ok (sh1, p) =>
              let lr := nodeExec mr (c.execAt p) c.fb p
              let st1 : StB :=
                { st with
                  shared := sh1
                  heap := st.heap.set id { nd with curRetry := lr.curRetry }
                  calls := st.calls + 1 + lr.execAttempts.length + lr.fbCalls.length }
              match lr.jsResult with
              | .error e => some (st1, .error e)
              | .ok ev =>
                match c.post st1.shared p ev nd.params with
                | .error e => some ({ st1 with calls := st1.calls + 1 }, .error e)
                | .ok (sh2, act) =>
                  some ({ st1 with shared := sh2, calls := st1.calls + 1 },
                    .ok (optStrToVal act))
          | .flow =>
            let g0 := getNextNode nd.succs .undefined
            let stw : StB := { st with warns := st.warns ++ g0.2.toList }
            match g0.1 with
            | none => some (stw, .error ⟨"Flow ends: no next node found"⟩)
            | some c0 =>
              runCoreB prog fuel (.flowLoop (spread [] (ps.getD [])) (some c0) last) stw
    | .flowLoop p curr last =>
      match curr with
      | none => some (st, .ok last)
      | some cid =>
        match st.heap[cid]? with
        | none => none
        | some cnd =>
          let cloneId := st.heap.length
          let st1 : StB := { st with heap := st.heap ++ [{ cnd with params := p }] }
          match runCoreB prog fuel (.runB cloneId (some p) last) st1 with
          | none => none
          | some (st2, .error e) => some (st2, .error e)
          | some (st2, .ok lastResult) =>
            match st2.heap[cid]? with
            | none => none
            | some cnd2 =>
              let gn := getNextNode cnd2.succs lastResult
              let st3 : StB := { st2 with warns := st2.warns ++ gn.2.toList }
              runCoreB prog fuel (.flowLoop p gn.1 lastResult) st3

/-- A class whose `post` returns the action `done`. -/
def clsDone : ClassSpec :=
  { classDefault with post := fun sh _ _ _ => .ok (sh, some "done") }

/-- A class whose `post` returns the action `x`. -/
def clsActX : ClassSpec :=
  { classDefault with post := fun sh _ _ _ => .ok (sh, some "x") }

/-- A class whose `post` returns the empty string as its action. -/
def clsActEmpty : ClassSpec :=
  { classDefault with post := fun sh _ _ _ => .ok (sh, some "") }

/-- A class whose `prep` writes the marker `B` into the shared store. -/
def clsWriteB : ClassSpec :=
  { classDefault with prep := fun _ _ => .ok (.str "B", .undefined) }

/-- A class whose `prep` writes the marker `C` into the shared store. -/
def clsWriteC : ClassSpec :=
  { classDefault with prep := fun _ _ => .ok (.str "C", .undefined) }

/-- A class whose `prep` records into the shared store the value its
`params` hold under the key `k` (`null` when absent); used to observe which
parameter set a flow injected into the node it runs. -/
def clsRecK : ClassSpec :=
  { classDefault with prep := fun _ ps => .ok ((getP ps "k").getD .null, .undefined) }

/-- A batch-flow class whose `prep` yields the single parameter set `b`. -/
def clsBatchPrep (b : Params) : ClassSpec :=
  { classDefault with prep := fun sh _ => .ok (sh, .list [.dict b]) }

/-- A simple variant-1 graph: a default flow whose start is a single default
node with the `done`-returning post. -/
def progS : List ClassSpec := [classDefault, clsDone]

/-- Heap of the simple graph: object 0 is the flow, object 1 its start. -/
def heapS : List NodeData :=
  [⟨0, .flow 1, [], [], 0⟩, ⟨1, .node 1, [], [], 0⟩]

/-- Initial state of the simple graph. -/
def stS : StA := ⟨heapS, .int 0, []⟩

/-- Class table of the nested-flow scenario: default hooks, a post returning
`x`, and the two marker-writing classes. -/
def progC3 : List ClassSpec := [classDefault, clsActX, clsWriteB, clsWriteC]

/-- Heap of the nested-flow scenario: object 0 is the outer flow starting at
the inner flow 1; the inner flow starts at node 2 (whose post returns `x`)
and has the successors `x` to node 3 (writes `B`) and `default` to node 4
(writes `C`). -/
def heapC3 : List NodeData :=
  [⟨0, .flow 1, [], [], 0⟩,
   ⟨0, .flow 2, [], [("x", 3), ("default", 4)], 0⟩,
   ⟨1, .node 1, [], [], 0⟩,
   ⟨2, .node 1, [], [], 0⟩,
   ⟨3, .node 1, [], [], 0⟩]

/-- Initial state of the nested-flow scenario. -/
def stC3 : StA := ⟨heapC3, .int 0, []⟩

/-- Class table of the empty-string-action scenario. -/
def progC6 : List ClassSpec := [classDefault, clsActEmpty, clsWriteB]

/-- Heap of the empty-string-action scenario: a flow starting at node 1,
whose post returns the empty string and whose only successor is registered
under the `default` label; node 2 writes the marker `B`. -/
def heapC6 : List NodeData :=
  [⟨0, .flow 1, [], [], 0⟩,
   ⟨1, .node 1, [], [("default", 2)], 0⟩,
   ⟨2, .node 1, [], [], 0⟩]

/-- Initial state of the empty-string-action scenario. -/
def stC6 : StA := ⟨heapC6, .int 0, []⟩

/-- Class table of the parameter-precedence scenario, parameterized by the
batch parameter set `b` that the batch flow's `prep` yields. -/
def progC4 (b : Params) : List ClassSpec := [classDefault, clsBatchPrep b, clsRecK]

/-- Heap of the parameter-precedence scenario: object 0 is a
`SequentialBatchFlow` whose own params are `a` and whose start, node 1,
records the parameter value it sees under `k`. -/
def heapC4 (a : Params) : List NodeData :=
  [⟨1, .batchFlow 1, a, [], 0⟩, ⟨2, .node 1, [], [], 0⟩]

/-- Initial state of the parameter-precedence scenario. -/
def stC4 (a : Params) : StA := ⟨heapC4 a, .null, []⟩

/-- Variant-2 class table with only the default hooks. -/
def progB0 : List ClassSpec := [classDefault]

/-- A variant-2 heap holding one `Flow` with no successors at all — in
variant 2 that is a flow without a start node. -/
def heapB0 : List NodeDataB := [⟨0, .flow, [], [], 0⟩]

/-- Initial variant-2 state for the startless flow. -/
def stB0 : StB := ⟨heapB0, .int 0, [], 0⟩

/-- Standalone-model hooks for the witnesses: a `prep` that yields `5`. -/
def prepW : Val → Except Err (Val × Val) := fun sh => .ok (sh, .int 5)

/-- An `exec` that fails on attempts 0 and 1 and returns `42` afterwards. -/
def execW : Val → Nat → Except Err Val :=
  fun _ i => if i < 2 then .error ⟨"boom"⟩ else .ok (.int 42)

/-- An `exec` that always fails, with the attempt index in the message. -/
def execWfail : Val → Nat → Except Err Val :=
  fun _ j => .error ⟨toString j⟩

/-- A `post` that records its arguments in the shared store and returns the
action `done`. -/
def postW : Val → Val → Val → Except Err (Val × Option String) :=
  fun _ p e => .ok (.list [p, e], some "done")

/-- Batch items for the witnesses. -/
def itemsW : List Val := [.int 1, .int 2, .int 3]

/-- A per-item `exec` that fails on the item `2` and echoes the others. -/
def execWbatch : Val → Nat → Except Err Val :=
  fun it _ =>
    match it with
    | .int 2 => .error ⟨"bad item"⟩
    | v => .ok v

/-- A per-item `exec` that doubles integer items. -/
def execWdouble : Val → Nat → Except Err Val :=
  fun it _ =>
    match it with
    | .int n => .ok (.int (2*n))
    | v => .ok v

/-- The doubling function on values, matching `execWdouble`. -/
def doubleV : Val → Val
  | .int n => .int (2*n)
  | v => v

/-- A `prep` that yields the witness batch items. -/
def prepWitems : Val → Except Err (Val × Val) := fun sh => .ok (sh, .list itemsW)

/-- The state after running the simple graph: one clone of node 1 was
appended (its `curRetry` ended at 0), the canonical objects are untouched. -/
def stSfinal : StA := ⟨heapS ++ [⟨1, .node 1, [], [], 0⟩], .int 0, []⟩

theorem getP_spread (a b : Params) (k : String) :
    getP (spread a b) k = (getP b k).or (getP a k) := by
  show getP (a ++ b) k = (getP b k).or (getP a k)
  induction a with
  | nil => simp [getP]
  | cons e as ih =>
    simp only [List.cons_append, getP]
    rw [show as.append b = as ++ b from rfl, ih, Option.or_assoc]

theorem nodeExecFrom_success (mr : Nat) (eo : Nat → Except Err Val)
    (fb : Val → Err → Except Err Val) (pr : Val) (v : Val) (ef : Nat → Err)
    (hmr : 1 ≤ mr)
    (hlt : ∀ j, j < mr - 1 → eo j = .error (ef j)) (hok : eo (mr-1) = .ok v) :
    ∀ fuel i, fuel + i = mr → i ≤ mr - 1 →
      nodeExecFrom mr eo fb pr fuel i =
        ⟨.execOk v, mr - 1, List.range' i fuel, []⟩ := by
  intro fuel
  induction fuel with
  | zero => intro i hsum hle; omega
  | succ f ih =>
    intro i hsum hle
    have hi : i < mr := by omega
    by_cases hlast : i = mr - 1
    · have hf0 : f = 0 := by omega
      subst hf0
      subst hlast
      simp only [nodeExecFrom, if_pos hi, hok]
      simp [List.range']
    · have hj : i < mr - 1 := by omega
      have he := hlt i hj
      simp only [nodeExecFrom, if_pos hi, he, if_neg hlast]
      rw [ih (i+1) (by omega) (by omega)]
      simp [List.range']

theorem nodeExecFrom_allFail (mr : Nat) (eo : Nat → Except Err Val)
    (fb : Val → Err → Except Err Val) (pr : Val) (ef : Nat → Err)
    (hmr : 1 ≤ mr)
    (hf : ∀ j, j < mr → eo j = .error (ef j)) :
    ∀ fuel i, fuel + i = mr → i ≤ mr - 1 →
      nodeExecFrom mr eo fb pr fuel i =
        ⟨.fallback (fb pr (ef (mr-1))), mr - 1, List.range' i fuel,
          [(pr, ef (mr-1))]⟩ := by
  intro fuel
  induction fuel with
  | zero => intro i hsum hle; omega
  | succ f ih =>
    intro i hsum hle
    have hi : i < mr := by omega
    have he := hf i hi
    by_cases hlast : i = mr - 1
    · have hf0 : f = 0 := by omega
      subst hf0
      subst hlast
      simp only [nodeExecFrom, if_pos hi, he]
      simp [List.range']
    · have hj : i < mr - 1 := by omega
      simp only [nodeExecFrom, if_pos hi, he, if_neg hlast]
      rw [ih (i+1) (by omega) (by omega)]
      simp [List.range']

theorem nodeExecFrom_exits (mr : Nat) (eo : Nat → Except Err Val)
    (fb : Val → Err → Except Err Val) (pr : Val) :
    ∀ fuel i, fuel + i = mr → i < mr →
      (nodeExecFrom mr eo fb pr fuel i).outcome ≠ .fellThrough := by
  intro fuel
  induction fuel with
  | zero => intro i hsum hi; omega
  | succ f ih =>
    intro i hsum hi
    simp only [nodeExecFrom, if_pos hi]
    cases he : eo i with
    | ok v => intro h; cases h
    | error e =>
      by_cases hlast : i = mr - 1
      · simp only [if_pos hlast]; intro h; cases h
      · simp only [if_neg hlast]
        exact ih (i+1) (by omega) (by omega)

/-- C1: for a node with `maxRetries = N ≥ 1` whose exec raises on attempts
`1..N-1` (0-based `0..N-2`) and returns `v` on attempt `N`, the retry loop
exits with that value immediately — exactly the attempts `0..N-1` are made —
`curRetry` equals `N-1` at loop exit, and `post` is invoked once, with the
prep result and that success result. -/
theorem retry_success_postprocess
    (prep : Val → Except Err (Val × Val))
    (execAt : Val → Nat → Except Err Val)
    (fb : Val → Err → Except Err Val)
    (post : Val → Val → Val → Except Err (Val × Option String))
    (shared sh1 p : Val) (N : Nat) (ef : Nat → Err) (v : Val)
    (hN : 1 ≤ N)
    (hprep : prep shared = .ok (sh1, p))
    (hfail : ∀ j, j < N - 1 → execAt p j = .error (ef j))
    (hok : execAt p (N - 1) = .ok v) :
    (nodeExec N (execAt p) fb p).outcome = .execOk v ∧
    (nodeExec N (execAt p) fb p).curRetry = N - 1 ∧
    (nodeExec N (execAt p) fb p).execAttempts = List.range N ∧
    (nodeRun prep execAt fb post N shared).postCalls = [(p, v)] := by
  have hl : nodeExec N (execAt p) fb p =
      ⟨.execOk v, N - 1, List.range' 0 N, []⟩ :=
    nodeExecFrom_success N (execAt p) fb p v ef hN hfail hok N 0 (by omega)
      (by omega)
  refine ⟨by rw [hl], by rw [hl], by rw [hl, List.range_eq_range'], ?_⟩
  simp only [nodeRun, baseRun, hprep, hl, RetryRes.jsResult]
  cases hpost : post sh1 p v with
  | ok pr => obtain ⟨sh2, act⟩ := pr; simp
  | error e => simp

/-- C1 witness: with `maxRetries = 3`, an exec failing on the first two
attempts and returning `42` on the third, the loop exits at `curRetry = 2`
and `post` receives the prep result `5` and the value `42`. -/
theorem retry_success_postprocess_witness :
    (nodeExec 3 (execW (.int 5)) execFallbackDefault (.int 5)).curRetry = 2 ∧
    (nodeRun prepW execW execFallbackDefault postW 3 .null).postCalls =
      [(.int 5, .int 42)] := by
  have h := retry_success_postprocess prepW execW execFallbackDefault postW
    .null .null (.int 5) 3 (fun _ => ⟨"boom"⟩) (.int 42) (by omega) rfl
    (fun j hj => by simp only [execW]; rw [if_pos (by omega)]) rfl
  exact ⟨h.2.1, h.2.2.2⟩

/-- C2: for a node with `maxRetries = N ≥ 1` whose exec raises on every
attempt, `execFallback` is invoked exactly once, with the prep result and
the error of the last attempt; with the default fallback that error
propagates unchanged out of `run`, and `post` is never called. -/
theorem retry_exhausted_fallback
    (succs : List (String × Nat))
    (prep : Val → Except Err (Val × Val))
    (execAt : Val → Nat → Except Err Val)
    (post : Val → Val → Val → Except Err (Val × Option String))
    (shared sh1 p : Val) (N : Nat) (ef : Nat → Err)
    (hN : 1 ≤ N)
    (hprep : prep shared = .ok (sh1, p))
    (hfail : ∀ j, j < N → execAt p j = .error (ef j)) :
    (nodeExec N (execAt p) execFallbackDefault p).fbCalls = [(p, ef (N-1))] ∧
    (nodeRunTop succs prep execAt execFallbackDefault post N shared).1.result =
      .error (ef (N-1)) ∧
    (nodeRunTop succs prep execAt execFallbackDefault post N shared).1.postCalls =
      [] := by
  have hl : nodeExec N (execAt p) execFallbackDefault p =
      ⟨.fallback (execFallbackDefault p (ef (N-1))), N - 1, List.range' 0 N,
        [(p, ef (N-1))]⟩ :=
    nodeExecFrom_allFail N (execAt p) execFallbackDefault p ef hN hfail N 0
      (by omega) (by omega)
  refine ⟨by rw [hl], ?_, ?_⟩ <;>
    simp [nodeRunTop, nodeRun, baseRun, hprep, hl, RetryRes.jsResult,
      execFallbackDefault]

/-- C2 witness: with `maxRetries = 2` and an always-failing exec, the
fallback is called once with the prep result and the attempt-1 error, that
error is the result of `run`, and `post` never ran. -/
theorem retry_exhausted_fallback_witness :
    (nodeExec 2 (execWfail (.int 5)) execFallbackDefault (.int 5)).fbCalls =
      [(.int 5, ⟨"1"⟩)] ∧
    (nodeRunTop [] prepW execWfail execFallbackDefault postW 2 .null).1.result =
      .error ⟨"1"⟩ ∧
    (nodeRunTop [] prepW execWfail execFallbackDefault postW 2 .null).1.postCalls =
      [] := by
  have h := retry_exhausted_fallback [] prepW execWfail postW .null .null
    (.int 5) 2 (fun j => ⟨toString j⟩) (by omega) rfl (fun j _ => rfl)
  exact h

/-- C10: for `maxRetries ≥ 1` the retry loop always exits through an exec
success or through the fallback call (whose exception, if any, propagates),
so the trailing `return null` is unreachable; with `maxRetries = 0` the loop
body never runs and `_exec` returns `null` (the `fellThrough` exit, whose
`jsResult` is `ok null`) without calling exec or the fallback. -/
theorem retry_loop_trailing_null
    (mr : Nat) (execAt : Nat → Except Err Val)
    (fb : Val → Err → Except Err Val) (pr : Val) :
    (1 ≤ mr → (nodeExec mr execAt fb pr).outcome ≠ .fellThrough) ∧
    (mr = 0 → nodeExec mr execAt fb pr = ⟨.fellThrough, 0, [], []⟩ ∧
      (nodeExec mr execAt fb pr).jsResult = .ok .null) := by
  constructor
  · intro hmr
    exact nodeExecFrom_exits mr execAt fb pr mr 0 (by omega) (by omega)
  · intro h0
    subst h0
    exact ⟨rfl, rfl⟩

/-- C10 witness: at `maxRetries = 1` the loop does not fall through; at
`maxRetries = 0` it returns `null` with no exec and no fallback call. -/
theorem retry_loop_trailing_null_witness :
    (nodeExec 1 (execWfail .null) execFallbackDefault .null).outcome ≠
      .fellThrough ∧
    nodeExec 0 (execWfail .null) execFallbackDefault .null =
      ⟨.fellThrough, 0, [], []⟩ := by
  refine ⟨(retry_loop_trailing_null 1 (execWfail .null) execFallbackDefault
    .null).1 (by omega), ?_⟩
  exact ((retry_loop_trailing_null 0 (execWfail .null) execFallbackDefault
    .null).2 rfl).1

theorem seqBatchExec_failFast
    (mr : Nat) (execAt : Val → Nat → Except Err Val)
    (fb : Val → Err → Except Err Val)
    (pre : List Val) (bad : Val) (rest : List Val) (f : Val → Val) (e : Err)
    (hpre : ∀ it ∈ pre, (nodeExec mr (execAt it) fb it).jsResult = .ok (f it))
    (hbad : (nodeExec mr (execAt bad) fb bad).jsResult = .error e) :
    seqBatchExec mr execAt fb (pre ++ bad :: rest) =
      ⟨.error e, pre ++ [bad]⟩ := by
  induction pre with
  | nil => simp only [List.nil_append, seqBatchExec, hbad]
  | cons it pre ih =>
    have hit := hpre it (List.mem_cons_self it pre)
    have ih2 := ih (fun x hx => hpre x (List.mem_cons_of_mem it hx))
    simp only [List.cons_append, seqBatchExec, hit, List.append_eq, ih2]
    rfl

/-- C7: a sequential batch whose item `bad` exhausts its retries with a
rethrowing fallback fails as a whole with that error: the items before `bad`
were started (in order), the items after it were never started, and the
node's `post` is not invoked (no partial results reach it); the error is the
result of the lifecycle pass. -/
theorem seq_batch_fail_fast
    (mr : Nat) (execAt : Val → Nat → Except Err Val)
    (fb : Val → Err → Except Err Val)
    (prep : Val → Except Err (Val × Val))
    (post : Val → Val → Val → Except Err (Val × Option String))
    (shared sh1 : Val)
    (pre : List Val) (bad : Val) (rest : List Val) (f : Val → Val) (e : Err)
    (hpre : ∀ it ∈ pre, (nodeExec mr (execAt it) fb it).jsResult = .ok (f it))
    (hbad : (nodeExec mr (execAt bad) fb bad).jsResult = .error e)
    (hprep : prep shared = .ok (sh1, .list (pre ++ bad :: rest))) :
    (seqBatchExec mr execAt fb (pre ++ bad :: rest)).result = .error e ∧
    (seqBatchExec mr execAt fb (pre ++ bad :: rest)).started = pre ++ [bad] ∧
    (seqBatchRun prep execAt fb post mr shared).result = .error e ∧
    (seqBatchRun prep execAt fb post mr shared).postCalls = [] := by
  have h := seqBatchExec_failFast mr execAt fb pre bad rest f e hpre hbad
  refine ⟨by rw [h], by rw [h], ?_, ?_⟩ <;>
    simp [seqBatchRun, baseRun, hprep, valItems, h]

/-- C7 witness: items `1, 2, 3` with item `2` always failing — the batch
result is that error, only `1` and `2` were started, and `post` never ran. -/
theorem seq_batch_fail_fast_witness :
    (seqBatchExec 1 execWbatch execFallbackDefault itemsW).result =
      .error ⟨"bad item"⟩ ∧
    (seqBatchExec 1 execWbatch execFallbackDefault itemsW).started =
      [.int 1, .int 2] ∧
    (seqBatchRun prepWitems execWbatch execFallbackDefault postW 1 .null).result =
      .error ⟨"bad item"⟩ ∧
    (seqBatchRun prepWitems execWbatch execFallbackDefault postW 1 .null).postCalls =
      [] := by
  have h := seq_batch_fail_fast 1 execWbatch execFallbackDefault prepWitems
    postW .null .null [.int 1] (.int 2) [.int 3] (fun v => v) ⟨"bad item"⟩
    (by intro it hit; fin_cases hit <;> rfl) rfl rfl
  exact h

theorem parBatchExec_map
    (mr : Nat) (execAt : Val → Nat → Except Err Val)
    (fb : Val → Err → Except Err Val) (items : List Val) (f : Val → Val)
    (h : ∀ it ∈ items, (nodeExec mr (execAt it) fb it).jsResult = .ok (f it)) :
    parBatchExec mr execAt fb items = .ok (items.map f) := by
  induction items with
  | nil => rfl
  | cons it items ih =>
    have hit := h it (List.mem_cons_self it items)
    have ih2 := ih (fun x hx => h x (List.mem_cons_of_mem it hx))
    simp only [parBatchExec, List.mapM_cons, hit] at *
    rw [ih2]
    rfl

/-- C8: a parallel batch in which every item's retry-wrapped exec succeeds
resolves to an array of the same length as the input whose entry at index
`i` is the retry-wrapped result of input item `i` — placement follows input
order (the model sequences the joined per-item computations, so the
completion-order half of the sentence has no counterpart here). -/
theorem par_batch_order
    (mr : Nat) (execAt : Val → Nat → Except Err Val)
    (fb : Val → Err → Except Err Val) (items : List Val) (f : Val → Val)
    (h : ∀ it ∈ items, (nodeExec mr (execAt it) fb it).jsResult = .ok (f it)) :
    parBatchExec mr execAt fb items = .ok (items.map f) ∧
    (items.map f).length = items.length ∧
    ∀ i (hi : i < items.length),
      (items.map f).get ⟨i, by simpa using hi⟩ = f (items.get ⟨i, hi⟩) := by
  refine ⟨parBatchExec_map mr execAt fb items f h, by simp, ?_⟩
  intro i hi
  simp

/-- C8 witness: doubling `1, 2, 3` in a parallel batch yields `2, 4, 6`, in
input order. -/
theorem par_batch_order_witness :
    parBatchExec 1 execWdouble execFallbackDefault itemsW =
      .ok [.int 2, .int 4, .int 6] := by
  have h := par_batch_order 1 execWdouble execFallbackDefault itemsW doubleV
    (by intro it hit; fin_cases hit <;> rfl)
  exact h.1.trans rfl

theorem somePairInj {A B : Type} {a c : A} {b d : B}
    (h : (some (a, b) : Option (A × B)) = some (c, d)) : a = c ∧ b = d := by
  injection h with h1
  injection h1 with h2 h3
  exact ⟨h2, h3⟩

theorem runCore_frame (prog : List ClassSpec) :
    ∀ fuel t st st' r, runCore prog fuel t st = some (st', r) →
      st.heap.length ≤ st'.heap.length ∧
      ∀ i, i < st.heap.length →
        (∀ id, t = TaskA.runN id → i ≠ id) →
        st'.heap[i]? = st.heap[i]? := by
  intro fuel
  induction fuel with
  | zero => intro t st st' r h; simp [runCore] at h
  | succ fuel ih =>
    intro t st st' r h
    cases t with
    | runN id =>
      simp only [runCore] at h
      split at h
      · exact absurd h (by simp)
      case _ nd hnd =>
      split at h
      · exact absurd h (by simp)
      case _ c hc =>
      split at h
      case _ mr hkind =>
        -- Node: prep, retry loop (writes curRetry), post
        split at h
        case _ e hp =>
          obtain ⟨h1, h2⟩ := somePairInj h
          subst h1
          exact ⟨le_rfl, fun i hi hni => rfl⟩
        case _ sh1 p hp =>
          have hlen : (st.heap.set id { nd with curRetry :=
              (nodeExec mr (c.execAt p) c.fb p).curRetry }).length =
              st.heap.length := by simp
          have hpres : ∀ i, i < st.heap.length → i ≠ id →
              (st.heap.set id { nd with curRetry :=
                (nodeExec mr (c.execAt p) c.fb p).curRetry })[i]? =
                st.heap[i]? := by
            intro i hi hne
            exact List.getElem?_set_ne (by omega)
          split at h
          case _ e hjs =>
            obtain ⟨h1, h2⟩ := somePairInj h
            subst h1
            refine ⟨by simp, fun i hi hni => hpres i hi (hni id rfl)⟩
          case _ ev hjs =>
            split at h
            case _ e hpost =>
              obtain ⟨h1, h2⟩ := somePairInj h
              subst h1
              refine ⟨by simp, fun i hi hni => hpres i hi (hni id rfl)⟩
            case _ sh2 act hpost =>
              obtain ⟨h1, h2⟩ := somePairInj h
              subst h1
              refine ⟨by simp, fun i hi hni => hpres i hi (hni id rfl)⟩
      case _ s hkind =>
        -- Flow: prep, orch, post
        split at h
        case _ e hp =>
          obtain ⟨h1, h2⟩ := somePairInj h
          subst h1
          exact ⟨le_rfl, fun i hi hni => rfl⟩
        case _ sh1 pr hp =>
          split at h
          · exact absurd h (by simp)
          case _ st2 e horch =>
            have hsub := ih (.orch id none) { st with shared := sh1 } st2
              (.error e) horch
            obtain ⟨h1, h2⟩ := somePairInj h
            subst h1
            exact ⟨hsub.1, fun i hi hni => hsub.2 i hi (by intro id' hid'; cases hid')⟩
          case _ st2 res horch =>
            have hsub := ih (.orch id none) { st with shared := sh1 } st2
              (.ok res) horch
            split at h
            case _ e hpost =>
              obtain ⟨h1, h2⟩ := somePairInj h
              subst h1
              exact ⟨hsub.1, fun i hi hni => hsub.2 i hi (by intro id' hid'; cases hid')⟩
            case _ sh3 act hpost =>
              obtain ⟨h1, h2⟩ := somePairInj h
              subst h1
              exact ⟨hsub.1, fun i hi hni => hsub.2 i hi (by intro id' hid'; cases hid')⟩
      case _ s hkind =>
        -- SequentialBatchFlow: prep, batch loop, post
        split at h
        case _ e hp =>
          obtain ⟨h1, h2⟩ := somePairInj h
          subst h1
          exact ⟨le_rfl, fun i hi hni => rfl⟩
        case _ sh1 prv hp =>
          split at h
          case _ e hitems =>
            obtain ⟨h1, h2⟩ := somePairInj h
            subst h1
            exact ⟨le_rfl, fun i hi hni => rfl⟩
          case _ bps hitems =>
            split at h
            · exact absurd h (by simp)
            case _ st2 e hloop =>
              have hsub := ih (.batchLoop id bps .null) { st with shared := sh1 }
                st2 (.error e) hloop
              obtain ⟨h1, h2⟩ := somePairInj h
              subst h1
              exact ⟨hsub.1, fun i hi hni => hsub.2 i hi (by intro id' hid'; cases hid')⟩
            case _ st2 res hloop =>
              have hsub := ih (.batchLoop id bps .null) { st with shared := sh1 }
                st2 (.ok res) hloop
              split at h
              case _ e hpost =>
                obtain ⟨h1, h2⟩ := somePairInj h
                subst h1
                exact ⟨hsub.1, fun i hi hni => hsub.2 i hi (by intro id' hid'; cases hid')⟩
              case _ sh3 act hpost =>
                obtain ⟨h1, h2⟩ := somePairInj h
                subst h1
                exact ⟨hsub.1, fun i hi hni => hsub.2 i hi (by intro id' hid'; cases hid')⟩
    | orch flowId supplied =>
      simp only [runCore] at h
      split at h
      · exact absurd h (by simp)
      case _ fd hfd =>
      split at h
      case _ hkind => exact absurd h (by simp)
      case _ s hkind =>
        have hsub := ih _ st st' r h
        exact ⟨hsub.1, fun i hi hni => hsub.2 i hi (by intro id' hid'; cases hid')⟩
      case _ s hkind =>
        have hsub := ih _ st st' r h
        exact ⟨hsub.1, fun i hi hni => hsub.2 i hi (by intro id' hid'; cases hid')⟩
    | orchLoop flowId p curr last =>
      simp only [runCore] at h
      split at h
      case _ =>
        obtain ⟨h1, h2⟩ := somePairInj h
        subst h1
        exact ⟨le_rfl, fun i hi hni => rfl⟩
      case _ cid =>
      split at h
      · exact absurd h (by simp)
      case _ cnd hcnd =>
      split at h
      · exact absurd h (by simp)
      case _ st2 e hrun =>
        have hsub := ih (.runN st.heap.length)
          { st with heap := st.heap ++ [{ cnd with params := p }] } st2
          (.error e) hrun
        obtain ⟨h1, h2⟩ := somePairInj h
        subst h1
        constructor
        · calc st.heap.length ≤ st.heap.length + 1 := by omega
            _ = ({ st with heap := st.heap ++ [{ cnd with params := p }] } : StA).heap.length := by simp
            _ ≤ st2.heap.length := hsub.1
        · intro i hi hni
          have h2' := hsub.2 i (by simp; omega)
            (by intro id' hid'; injection hid' with hh; omega)
          rw [h2']
          exact List.getElem?_append_left hi
      case _ st2 lastResult hrun =>
        have hsub := ih (.runN st.heap.length)
          { st with heap := st.heap ++ [{ cnd with params := p }] } st2
          (.ok lastResult) hrun
        split at h
        · exact absurd h (by simp)
        case _ cnd2 hcnd2 =>
          have hsub2 := ih
            (.orchLoop flowId p (getNextNode cnd2.succs lastResult).1 lastResult)
            { st2 with warns := st2.warns ++ (getNextNode cnd2.succs lastResult).2.toList }
            st' r h
          constructor
          · calc st.heap.length ≤ st.heap.length + 1 := by omega
              _ = ({ st with heap := st.heap ++ [{ cnd with params := p }] } : StA).heap.length := by simp
              _ ≤ st2.heap.length := hsub.1
              _ ≤ st'.heap.length := hsub2.1
          · intro i hi hni
            have hlt2 : i < st2.heap.length := by
              have := hsub.1; simp at this; omega
            have h2' := hsub2.2 i (by simpa using hlt2)
              (by intro id' hid'; cases hid')
            have h1' := hsub.2 i (by simp; omega)
              (by intro id' hid'; injection hid' with hh; omega)
            rw [h2', h1']
            exact List.getElem?_append_left hi
    | batchLoop flowId bps acc =>
      simp only [runCore] at h
      split at h
      case _ =>
        obtain ⟨h1, h2⟩ := somePairInj h
        subst h1
        exact ⟨le_rfl, fun i hi hni => rfl⟩
      case _ bp rest =>
      split at h
      · exact absurd h (by simp)
      case _ fd hfd =>
      split at h
      · exact absurd h (by simp)
      case _ st2 e horch =>
        have hsub := ih (.orch flowId (some (spread fd.params (asParams bp)))) st
          st2 (.error e) horch
        obtain ⟨h1, h2⟩ := somePairInj h
        subst h1
        exact ⟨hsub.1, fun i hi hni => hsub.2 i hi (by intro id' hid'; cases hid')⟩
      case _ st2 res horch =>
        have hsub := ih (.orch flowId (some (spread fd.params (asParams bp)))) st
          st2 (.ok res) horch
        have hsub2 := ih (.batchLoop flowId rest res) st2 st' r h
        constructor
        · exact le_trans hsub.1 hsub2.1
        · intro i hi hni
          have hlt2 : i < st2.heap.length := by omega
          rw [hsub2.2 i hlt2 (by intro id' hid'; cases hid'),
            hsub.2 i hi (by intro id' hid'; cases hid')]

/-- C9: a variant-1 Flow run never mutates the canonical node objects of the
graph: each traversal step runs on a freshly appended clone (own fields
copied, `params` and `successors` records copied, `setParams` and the
`curRetry` writes hitting only the clone), so every heap object that
existed before the run — its `params`, `successors` and `curRetry`
included — is identical before and after. -/
theorem flow_run_preserves_canonical (prog : List ClassSpec) (fuel : Nat)
    (id : Nat) (st st' : StA) (r : Except Err Val) (nd : NodeData) (s : Nat)
    (hnd : st.heap[id]? = some nd) (hk : nd.kind = .flow s)
    (hrun : runCore prog (fuel+1) (.runN id) st = some (st', r)) :
    ∀ i, i < st.heap.length → st'.heap[i]? = st.heap[i]? := by
  simp only [runCore, hnd, hk] at hrun
  split at hrun
  · exact absurd hrun (by simp)
  case _ c hc =>
  split at hrun
  case _ e hp =>
    obtain ⟨h1, h2⟩ := somePairInj hrun
    subst h1
    exact fun i hi => rfl
  case _ sh1 pr hp =>
    split at hrun
    · exact absurd hrun (by simp)
    case _ st2 e horch =>
      have hsub := runCore_frame prog fuel (.orch id none)
        { st with shared := sh1 } st2 (.error e) horch
      obtain ⟨h1, h2⟩ := somePairInj hrun
      subst h1
      exact fun i hi => hsub.2 i hi (by intro id' hid'; cases hid')
    case _ st2 res horch =>
      have hsub := runCore_frame prog fuel (.orch id none)
        { st with shared := sh1 } st2 (.ok res) horch
      split at hrun
      case _ e hpost =>
        obtain ⟨h1, h2⟩ := somePairInj hrun
        subst h1
        exact fun i hi => hsub.2 i hi (by intro id' hid'; cases hid')
      case _ sh3 act hpost =>
        obtain ⟨h1, h2⟩ := somePairInj hrun
        subst h1
        exact fun i hi => hsub.2 i hi (by intro id' hid'; cases hid')

/-- C9 witness: after running the simple flow graph, the canonical start
node (object 1) — params, successors and retry counter — is exactly what it
was before the run. -/
theorem flow_run_preserves_canonical_witness :
    runCore progS 20 (.runN 0) stS = some (stSfinal, .ok .undefined) ∧
    stSfinal.heap[1]? = stS.heap[1]? := by
  refine ⟨rfl, ?_⟩
  exact flow_run_preserves_canonical progS 19 0 stS stSfinal (.ok .undefined)
    ⟨0, .flow 1, [], [], 0⟩ 1 rfl rfl (by rfl) 1 (by decide)

/-- C3 counterexample: in the nested-flow graph (`progC3`, `heapC3`) the
inner traversal's final action is `x`, and the inner flow's successors map
`x` to node 3 (which writes `B`) and `default` to node 4 (which writes
`C`). The claim predicts the outer transition uses the inner traversal's
final action, hence runs node 3 and leaves `B` in the shared store. The
code instead feeds the inner flow's own default `post` return — `undefined`
— to the outer lookup, follows `default`, runs node 4, and leaves `C`; the
outer run also returns the outer flow's default post value, not the last
lifecycle result. -/
theorem nested_flow_action_cex :
    (runCore progC3 30 (.runN 0) stC3).map
      (fun x => (x.1.shared, x.1.warns.length, x.2)) =
      some (.str "C", 0, .ok .undefined) ∧
    (runCore progC3 30 (.runN 0) stC3).map (fun x => x.1.shared) ≠
      some (.str "B") := by
  refine ⟨rfl, ?_⟩
  intro h
  have h2 : (Val.str "C") = (Val.str "B") := by
    have : (some (Val.str "C") : Option Val) = some (.str "B") := by
      exact (by rfl : (runCore progC3 30 (.runN 0) stC3).map (fun x => x.1.shared) = some (.str "C")) ▸ h
    injection this
  injection h2 with h3
  simp at h3

/-- C3 amended: a variant-1 Flow's `run` returns the value of the Flow's own
`post` applied to the traversal result — for the default (void) `post` that
is `undefined`, not the traversal's last lifecycle result — and an outer
transition lookup made with `undefined` consults the `default` label, so a
nested Flow with an unoverridden `post` sends the outer flow to its
`default` successor regardless of the inner traversal's final action. -/
theorem flow_run_returns_post (prog : List ClassSpec) (fuel : Nat) (id : Nat)
    (st : StA) (nd : NodeData) (c : ClassSpec) (s : Nat)
    (hnd : st.heap[id]? = some nd) (hk : nd.kind = .flow s)
    (hc : prog[nd.cls]? = some c) (hpost : c.post = postDefault) :
    (∀ st' v, runCore prog (fuel+1) (.runN id) st = some (st', .ok v) →
      v = .undefined) ∧
    ∀ succs2, (getNextNode succs2 .undefined).1 = lookupS succs2 "default" := by
  constructor
  · intro st' v h
    simp only [runCore, hnd, hk, hc, hpost] at h
    split at h
    case _ e hp => exact absurd (somePairInj h).2 (by simp)
    case _ sh1 pr hp =>
      split at h
      · exact absurd h (by simp)
      case _ st2 e horch => exact absurd (somePairInj h).2 (by simp)
      case _ st2 res horch =>
        simp only [postDefault] at h
        have h2 := (somePairInj h).2
        injection h2 with h3
        exact h3.symm
  · intro succs2
    rfl

/-- C3 amended witness: running the simple default-post flow graph yields
the action value `undefined`. -/
theorem flow_run_returns_post_witness :
    ∃ v, runCore progS 20 (.runN 0) stS = some (stSfinal, Except.ok v) ∧
      v = Val.undefined :=
  ⟨Val.undefined, rfl,
    (flow_run_returns_post progS 19 0 stS ⟨0, .flow 1, [], [], 0⟩ classDefault
      1 rfl rfl rfl rfl).1 stSfinal Val.undefined (by rfl)⟩

/-- C4 counterexample: a `SequentialBatchFlow` whose own params bind `k` to
`1` runs its start node under a batch parameter set binding `k` to `2`. The
claim predicts the Flow's own parameters take precedence, so the node would
observe `1`; the code spreads the supplied set after the flow's own params,
the supplied entry wins, and the node observes `2`. -/
theorem batchflow_param_precedence_cex :
    (runCore (progC4 [("k", .int 2)]) 30 (.runN 0) (stC4 [("k", .int 1)])).map
      (fun x => (x.1.shared, x.2)) = some (.int 2, .ok .undefined) ∧
    (runCore (progC4 [("k", .int 2)]) 30 (.runN 0) (stC4 [("k", .int 1)])).map
      (fun x => x.1.shared) ≠ some (.int 1) := by
  refine ⟨rfl, ?_⟩
  intro h
  have h1 : (some (Val.int 2) : Option Val) = some (.int 1) :=
    (by rfl : (runCore (progC4 [("k", .int 2)]) 30 (.runN 0)
      (stC4 [("k", .int 1)])).map (fun x => x.1.shared) = some (.int 2)) ▸ h
  injection h1 with h2
  injection h2 with h3
  simp at h3

/-- C4 amended: before each per-step node run the flow injects, via
`setParams` on the clone, the spread-merge of its own `params` with the
parameter set supplied for this traversal — and in that merge the supplied
entries take precedence over the Flow's own (the observed value under `k`
is the supplied one whenever the supplied set binds `k`, the flow's own
otherwise). -/
theorem batchflow_param_precedence (a b : Params) :
    (runCore (progC4 b) 30 (.runN 0) (stC4 a)).map
      (fun x => (x.1.shared, x.2)) =
      some (((getP b "k").or (getP a "k")).getD .null, .ok .undefined) := by
  have h : (runCore (progC4 b) 30 (.runN 0) (stC4 a)).map
      (fun x => (x.1.shared, x.2)) =
      some ((getP (spread a (spread a b)) "k").getD .null, .ok .undefined) := rfl
  rw [h, getP_spread, getP_spread, Option.or_assoc, Option.or_self]

/-- C6 counterexample: node 1 returns the empty string as its action and its
only successor is registered under `default`. The claim treats the empty
string as a present action with no matching entry, predicting a warning and
termination at node 1. The code normalizes every falsy action — the empty
string included — to `default`, so the traversal continues silently to node
2, which writes `B`. -/
theorem empty_action_cex :
    (runCore progC6 30 (.runN 0) stC6).map
      (fun x => (x.1.shared, x.1.warns.length, x.2)) =
      some (.str "B", 0, .ok .undefined) ∧
    getNextNode [("default", 2)] (.str "") = (some 2, none) := ⟨rfl, rfl⟩

/-- C6 amended: the successor key is the action when the action is truthy
and the `default` label when the action is absent or otherwise falsy (the
empty string in particular); under that key, a hit continues the traversal
with no diagnostic, a miss on a node with at least one successor terminates
it with the dead-end warning naming the action and the available labels,
and a miss on a successor-less node terminates it silently. -/
theorem getNextNode_characterization (succs : List (String × Nat)) (a : Val) :
    keyOf .undefined = "default" ∧ keyOf (.str "") = "default" ∧
    (∀ s, s ≠ "" → keyOf (.str s) = s) ∧
    (∀ nid, lookupS succs (keyOf a) = some nid →
      getNextNode succs a = (some nid, none)) ∧
    (lookupS succs (keyOf a) = none → succs ≠ [] →
      getNextNode succs a =
        (none, some (.deadEnd a (succs.map (fun e => e.1))))) ∧
    (lookupS succs (keyOf a) = none → succs = [] →
      getNextNode succs a = (none, none)) := by
  refine ⟨rfl, by simp [keyOf], fun s hs => by simp [keyOf, hs], ?_, ?_, ?_⟩
  · intro nid hl
    simp [getNextNode, hl]
  · intro hl hne
    have hlen : succs.length > 0 := by
      cases succs with
      | nil => exact absurd rfl hne
      | cons x xs => simp
    simp [getNextNode, hl, hlen]
  · intro hl hnil
    subst hnil
    simp [getNextNode, hl]

/-- C6 amended witness: a truthy unmatched action on a node with one
successor yields the dead-end warning and no next node; the same lookup on
a successor-less node terminates silently. -/
theorem getNextNode_characterization_witness :
    getNextNode [("default", 2)] (.str "x") =
      (none, some (.deadEnd (.str "x") ["default"])) ∧
    getNextNode [] (.str "x") = (none, none) := by
  refine ⟨?_, ?_⟩
  · exact (getNextNode_characterization [("default", 2)] (.str "x")).2.2.2.2.1
      rfl (by simp)
  · exact (getNextNode_characterization [] (.str "x")).2.2.2.2.2 rfl rfl

/-- C5: a variant-2 Flow with no start node — no successor registered under
the `default` label — fails immediately when run, for every shared-state
argument and before any lifecycle hook executes: `run` throws `Flow ends:
no next node found`, leaving the heap, the shared store and the lifecycle
call counter untouched (only the dead-end diagnostic may be emitted when
other successors exist). -/
theorem flow_without_start_fails (prog : List ClassSpec) (fuel : Nat)
    (id : Nat) (ps : Option Params) (last : Val) (st : StB)
    (nd : NodeDataB) (c : ClassSpec)
    (hnd : st.heap[id]? = some nd) (hc : prog[nd.cls]? = some c)
    (hk : nd.kind = .flow)
    (hstart : lookupS nd.succs "default" = none) :
    runCoreB prog (fuel+1) (.runB id ps last) st =
      some ({ st with warns := st.warns ++ (getNextNode nd.succs .undefined).2.toList },
        .error ⟨"Flow ends: no next node found"⟩) := by
  simp only [runCoreB, hnd, hc, hk]
  have h1 : (getNextNode nd.succs .undefined).1 = none := by
    simp [getNextNode, keyOf, hstart]
  rw [h1]

/-- C5 witness: running the startless variant-2 flow returns the topology
error with the state unchanged and zero lifecycle calls. -/
theorem flow_without_start_fails_witness :
    runCoreB progB0 10 (.runB 0 none .undefined) stB0 =
      some (stB0, .error ⟨"Flow ends: no next node found"⟩) ∧
    stB0.calls = 0 := by
  constructor
  · have h := flow_without_start_fails progB0 9 0 none .undefined stB0
      ⟨0, .flow, [], [], 0⟩ classDefault rfl rfl rfl rfl
    simpa using h
  · rfl
